import Mathlib

/-!
Verification development for the smded repository's graphics core:
the SNES 4bpp tile decoder (`src/gfx.rs`), the overlay address resolver
and tileset layout detection (`src/tileset.rs`), the block-to-subtile
grid model (`src/ui/tile_view.rs`), the texture cache
(`src/ui/tile_view/cache.rs`) and the packed tilemap entries
(`src/project.rs`).  Machine integers (u8/u16/u32/usize) are embedded as
`Nat` with explicit `% 2^w` wherever the Rust operation can wrap.
-/

namespace Smded

/-- Modulus of the u32 type. -/
def U32 : Nat := 2 ^ 32

/-! ## Tile decoder (src/gfx.rs)

`spread_u8_x4` embeds the Rust function of the same name.  The input is a
u8 (hence the `% 2 ^ 8` for the `u32::from` conversion); all intermediate
values are u32, and each left shift is reduced `% U32` as the Rust `<<`
on u32 discards high bits. -/
def spread_u8_x4 (x8 : Nat) : Nat :=
  let x0 := x8 % 2 ^ 8
  let x1 := 0x000F000F &&& (x0 ||| (x0 <<< 12) % U32)
  let x2 := 0x03030303 &&& (x1 ||| (x1 <<< 6) % U32)
  0x11111111 &&& (x2 ||| (x2 <<< 3) % U32)

/-- Embeds `decode_bitplanes` from src/gfx.rs: the `[u8; 4]` argument is
passed as four separate bytes. -/
def decode_bitplanes (b0 b1 b2 b3 : Nat) : Nat :=
  spread_u8_x4 b0 ||| (spread_u8_x4 b1 <<< 1) % U32
    ||| (spread_u8_x4 b2 <<< 2) % U32 ||| (spread_u8_x4 b3 <<< 3) % U32

/-- Reference (spec-side) definition for the refinement claim C1: the 4-bit
pixel index of column bit `k`, assembled bit-by-bit from the four bitplane
bytes (bit `p` of the index is bit `k` of byte `b_p`). -/
def pixel_index_ref (b0 b1 b2 b3 k : Nat) : Nat :=
  b0 / 2 ^ k % 2 + 2 * (b1 / 2 ^ k % 2) + 4 * (b2 / 2 ^ k % 2) + 8 * (b3 / 2 ^ k % 2)

/-- Reference (spec-side) definition for C1: the naive per-bit loop placing
bit `k` of bitplane `p` at bit `4 * k + p` of the row word, i.e. summing the
pixel indices weighted by `16 ^ k`. -/
def decode_bitplanes_ref (b0 b1 b2 b3 : Nat) : Nat :=
  ((List.range 8).map (fun k => pixel_index_ref b0 b1 b2 b3 k * 16 ^ k)).sum

/-- Single-plane bit spreading, written as a sum: bit `k` of the byte lands
at bit `4 * k`. -/
def spread_ref (x : Nat) : Nat :=
  ((List.range 8).map (fun k => x / 2 ^ k % 2 * 16 ^ k)).sum

set_option maxRecDepth 8000 in
theorem spread_u8_x4_fin : ∀ x : Fin 256, spread_u8_x4 x.val = spread_ref x.val := by
  decide

theorem spread_u8_x4_eq_ref {x : Nat} (hx : x < 256) : spread_u8_x4 x = spread_ref x :=
  spread_u8_x4_fin ⟨x, hx⟩

theorem spread_u8_x4_le (x : Nat) : spread_u8_x4 x ≤ 0x11111111 := by
  unfold spread_u8_x4
  exact Nat.and_le_left

theorem and_mask_idem (m y : Nat) : (m &&& y) &&& m = m &&& y := by
  rw [Nat.and_comm (m &&& y) m, ← Nat.and_assoc, Nat.and_self]

theorem spread_u8_x4_masked (x : Nat) : spread_u8_x4 x &&& 0x11111111 = spread_u8_x4 x :=
  and_mask_idem _ _

theorem and_shiftLeft_distrib (a b n : Nat) : (a &&& b) <<< n = a <<< n &&& b <<< n := by
  apply Nat.eq_of_testBit_eq
  intro i
  simp only [Nat.testBit_shiftLeft, Nat.testBit_and]
  cases decide (i ≥ n) <;> cases a.testBit (i - n) <;> cases b.testBit (i - n) <;> rfl

theorem and_eq_zero_of_masks {a b m n : Nat} (ha : a &&& m = a) (hb : b &&& n = b)
    (hmn : m &&& n = 0) : a &&& b = 0 := by
  apply Nat.eq_of_testBit_eq
  intro i
  have h1 := congrArg (fun t => t.testBit i) ha
  have h2 := congrArg (fun t => t.testBit i) hb
  have h3 := congrArg (fun t => t.testBit i) hmn
  simp only [Nat.testBit_and, Nat.zero_testBit] at h1 h2 h3 ⊢
  cases hA : a.testBit i <;> cases hB : b.testBit i <;> simp_all

theorem or_eq_add_of_and_eq_zero (a : Nat) : ∀ b, a &&& b = 0 → a ||| b = a + b := by
  induction a using Nat.strongRecOn with
  | ind a ih =>
    intro b h
    match a with
    | 0 => simp
    | a0 + 1 =>
      have hdiv : (a0 + 1) / 2 &&& b / 2 = 0 := by
        rw [← Nat.and_div_two, h]
      have ihreq : (a0 + 1) / 2 ||| b / 2 = (a0 + 1) / 2 + b / 2 :=
        ih ((a0 + 1) / 2) (by omega) (b / 2) hdiv
      have hm : ¬((a0 + 1) % 2 = 1 ∧ b % 2 = 1) := by
        intro hand
        have h1 : (a0 + 1 &&& b) % 2 = 1 := Nat.and_mod_two_eq_one.mpr hand
        rw [h] at h1
        omega
      have hor1 : ((a0 + 1 ||| b) % 2 = 1) ↔ (a0 + 1) % 2 = 1 ∨ b % 2 = 1 :=
        Nat.or_mod_two_eq_one
      have hdiv2 : (a0 + 1 ||| b) / 2 = (a0 + 1) / 2 ||| b / 2 := Nat.or_div_two
      have e1 := Nat.div_add_mod (a0 + 1 ||| b) 2
      have e2 := Nat.div_add_mod (a0 + 1) 2
      have e3 := Nat.div_add_mod b 2
      have hlt1 : (a0 + 1 ||| b) % 2 < 2 := Nat.mod_lt _ (by omega)
      rw [hdiv2, ihreq] at e1
      omega

theorem spread_shift_lt (x : Nat) {i : Nat} (hi : i ≤ 3) : spread_u8_x4 x <<< i < U32 := by
  have h := spread_u8_x4_le x
  rw [Nat.shiftLeft_eq]
  have : (2 : Nat) ^ i ≤ 2 ^ 3 := Nat.pow_le_pow_right (by omega) hi
  have : spread_u8_x4 x * 2 ^ i ≤ 0x11111111 * 2 ^ 3 :=
    Nat.mul_le_mul h this
  unfold U32
  omega

theorem spread_shift_masked (x i : Nat) :
    spread_u8_x4 x <<< i &&& 0x11111111 <<< i = spread_u8_x4 x <<< i := by
  rw [← and_shiftLeft_distrib, spread_u8_x4_masked]

theorem decode_bitplanes_eq_add (b0 b1 b2 b3 : Nat) :
    decode_bitplanes b0 b1 b2 b3 =
      spread_u8_x4 b0 + 2 * spread_u8_x4 b1 + 4 * spread_u8_x4 b2 + 8 * spread_u8_x4 b3 := by
  have m1 : (0x11111111 : Nat) &&& 0x11111111 <<< 1 = 0 := by decide
  have m2 : (0x11111111 : Nat) &&& 0x11111111 <<< 2 = 0 := by decide
  have m3 : (0x11111111 : Nat) &&& 0x11111111 <<< 3 = 0 := by decide
  have m12 : (0x11111111 : Nat) <<< 1 &&& 0x11111111 <<< 2 = 0 := by decide
  have m13 : (0x11111111 : Nat) <<< 1 &&& 0x11111111 <<< 3 = 0 := by decide
  have m23 : (0x11111111 : Nat) <<< 2 &&& 0x11111111 <<< 3 = 0 := by decide
  have hs0 := spread_u8_x4_masked b0
  have hs1 := spread_shift_masked b1 1
  have hs2 := spread_shift_masked b2 2
  have hs3 := spread_shift_masked b3 3
  have d01 : spread_u8_x4 b0 &&& spread_u8_x4 b1 <<< 1 = 0 :=
    and_eq_zero_of_masks hs0 hs1 m1
  have d02 : spread_u8_x4 b0 &&& spread_u8_x4 b2 <<< 2 = 0 :=
    and_eq_zero_of_masks hs0 hs2 m2
  have d03 : spread_u8_x4 b0 &&& spread_u8_x4 b3 <<< 3 = 0 :=
    and_eq_zero_of_masks hs0 hs3 m3
  have d12 : spread_u8_x4 b1 <<< 1 &&& spread_u8_x4 b2 <<< 2 = 0 :=
    and_eq_zero_of_masks hs1 hs2 m12
  have d13 : spread_u8_x4 b1 <<< 1 &&& spread_u8_x4 b3 <<< 3 = 0 :=
    and_eq_zero_of_masks hs1 hs3 m13
  have d23 : spread_u8_x4 b2 <<< 2 &&& spread_u8_x4 b3 <<< 3 = 0 :=
    and_eq_zero_of_masks hs2 hs3 m23
  have w1 : spread_u8_x4 b1 <<< 1 % U32 = spread_u8_x4 b1 <<< 1 :=
    Nat.mod_eq_of_lt (spread_shift_lt b1 (by omega))
  have w2 : spread_u8_x4 b2 <<< 2 % U32 = spread_u8_x4 b2 <<< 2 :=
    Nat.mod_eq_of_lt (spread_shift_lt b2 (by omega))
  have w3 : spread_u8_x4 b3 <<< 3 % U32 = spread_u8_x4 b3 <<< 3 :=
    Nat.mod_eq_of_lt (spread_shift_lt b3 (by omega))
  have e1 : spread_u8_x4 b0 ||| spread_u8_x4 b1 <<< 1 =
      spread_u8_x4 b0 + spread_u8_x4 b1 <<< 1 :=
    or_eq_add_of_and_eq_zero _ _ d01
  have hA : (spread_u8_x4 b0 ||| spread_u8_x4 b1 <<< 1) &&& spread_u8_x4 b2 <<< 2 = 0 := by
    rw [Nat.and_distrib_right, d02, d12]
    simp
  have e2 : (spread_u8_x4 b0 ||| spread_u8_x4 b1 <<< 1) ||| spread_u8_x4 b2 <<< 2 =
      (spread_u8_x4 b0 ||| spread_u8_x4 b1 <<< 1) + spread_u8_x4 b2 <<< 2 :=
    or_eq_add_of_and_eq_zero _ _ hA
  have hB : ((spread_u8_x4 b0 ||| spread_u8_x4 b1 <<< 1) ||| spread_u8_x4 b2 <<< 2) &&&
      spread_u8_x4 b3 <<< 3 = 0 := by
    rw [Nat.and_distrib_right, Nat.and_distrib_right, d03, d13, d23]
    simp
  have e3 : ((spread_u8_x4 b0 ||| spread_u8_x4 b1 <<< 1) ||| spread_u8_x4 b2 <<< 2) |||
      spread_u8_x4 b3 <<< 3 =
      ((spread_u8_x4 b0 ||| spread_u8_x4 b1 <<< 1) ||| spread_u8_x4 b2 <<< 2) +
        spread_u8_x4 b3 <<< 3 :=
    or_eq_add_of_and_eq_zero _ _ hB
  unfold decode_bitplanes
  rw [w1, w2, w3, e3, e2, e1]
  rw [Nat.shiftLeft_eq, Nat.shiftLeft_eq, Nat.shiftLeft_eq]
  ring

theorem decode_bitplanes_ref_eq_add (b0 b1 b2 b3 : Nat) :
    decode_bitplanes_ref b0 b1 b2 b3 =
      spread_ref b0 + 2 * spread_ref b1 + 4 * spread_ref b2 + 8 * spread_ref b3 := by
  simp only [decode_bitplanes_ref, pixel_index_ref, spread_ref, List.range_succ,
    List.map_append, List.map_cons, List.map_nil, List.sum_append, List.sum_cons,
    List.sum_nil, List.range_zero]
  ring

theorem pixel_index_ref_lt (b0 b1 b2 b3 k : Nat) : pixel_index_ref b0 b1 b2 b3 k < 16 := by
  unfold pixel_index_ref
  omega

theorem decode_bitplanes_ref_digit (b0 b1 b2 b3 : Nat) {k : Nat} (hk : k < 8) :
    decode_bitplanes_ref b0 b1 b2 b3 / 16 ^ k % 16 = pixel_index_ref b0 b1 b2 b3 k := by
  have p0 := pixel_index_ref_lt b0 b1 b2 b3 0
  have p1 := pixel_index_ref_lt b0 b1 b2 b3 1
  have p2 := pixel_index_ref_lt b0 b1 b2 b3 2
  have p3 := pixel_index_ref_lt b0 b1 b2 b3 3
  have p4 := pixel_index_ref_lt b0 b1 b2 b3 4
  have p5 := pixel_index_ref_lt b0 b1 b2 b3 5
  have p6 := pixel_index_ref_lt b0 b1 b2 b3 6
  have p7 := pixel_index_ref_lt b0 b1 b2 b3 7
  have hsum : decode_bitplanes_ref b0 b1 b2 b3 =
      pixel_index_ref b0 b1 b2 b3 0 + pixel_index_ref b0 b1 b2 b3 1 * 16 +
      pixel_index_ref b0 b1 b2 b3 2 * 256 + pixel_index_ref b0 b1 b2 b3 3 * 4096 +
      pixel_index_ref b0 b1 b2 b3 4 * 65536 + pixel_index_ref b0 b1 b2 b3 5 * 1048576 +
      pixel_index_ref b0 b1 b2 b3 6 * 16777216 + pixel_index_ref b0 b1 b2 b3 7 * 268435456 := by
    simp only [decode_bitplanes_ref, List.range_succ, List.map_append, List.map_cons,
      List.map_nil, List.sum_append, List.sum_cons, List.sum_nil, List.range_zero]
    ring
  interval_cases k <;> (rw [hsum]; norm_num; omega)

/-- C1: for all byte inputs, the fast bit-spreading decoder
`decode_bitplanes` computes the same 32-bit row word as the naive per-bit
reference loop that places bit `k` of bitplane `p` at bit `4 * k + p`, and
the nibble of the result at bits `[4 * k, 4 * k + 4)` is the 4-bit pixel
index whose bit `p` is bit `k` of byte `b_p`. -/
theorem C1_decode_bitplanes_refines_ref (b0 b1 b2 b3 : Nat)
    (h0 : b0 < 256) (h1 : b1 < 256) (h2 : b2 < 256) (h3 : b3 < 256) :
    decode_bitplanes b0 b1 b2 b3 = decode_bitplanes_ref b0 b1 b2 b3 ∧
    ∀ k, k < 8 →
      decode_bitplanes b0 b1 b2 b3 / 16 ^ k % 16 = pixel_index_ref b0 b1 b2 b3 k := by
  have hmain : decode_bitplanes b0 b1 b2 b3 = decode_bitplanes_ref b0 b1 b2 b3 := by
    rw [decode_bitplanes_eq_add, decode_bitplanes_ref_eq_add,
      spread_u8_x4_eq_ref h0, spread_u8_x4_eq_ref h1,
      spread_u8_x4_eq_ref h2, spread_u8_x4_eq_ref h3]
  refine ⟨hmain, fun k hk => ?_⟩
  rw [hmain]
  exact decode_bitplanes_ref_digit b0 b1 b2 b3 hk

/-- Witness for C1 at the concrete bytes (1, 2, 4, 8). -/
theorem C1_witness :
    decode_bitplanes 1 2 4 8 = decode_bitplanes_ref 1 2 4 8 ∧
    ∀ k, k < 8 → decode_bitplanes 1 2 4 8 / 16 ^ k % 16 = pixel_index_ref 1 2 4 8 k :=
  C1_decode_bitplanes_refines_ref 1 2 4 8 (by decide) (by decide) (by decide) (by decide)

/-! ## Tile pixel writing (src/gfx.rs, `Snes4BppTile::write_to_image` and
`write_to_image_flippable`)

The pixel type (`Color32` in the source) is kept abstract as `α`; a palette
line (`[Color32; 16]`) is embedded as a total function `Nat → α` whose
in-bounds use is established separately (claim C10).  The output iterator of
row slivers is embedded as the list of 8-pixel rows it yields, and the write
functions return the rows after the writes. -/

/-- Inner row loop of `Snes4BppTile::write_to_image`: walks the output row,
extracting one 4-bit index per pixel from the row word `bp` (from the most
significant end, or the least significant end under horizontal flip), and
overwrites the pixel from the palette unless transparency is requested and
the index is 0. -/
def write_row {α : Type} (hFlip useT : Bool) (pal : Nat → α) : Nat → List α → List α
  | _, [] => []
  | bp, c :: rest =>
    let index := if hFlip then bp &&& 0xF else bp >>> 28
    let bpNext := if hFlip then bp >>> 4 else bp <<< 4 % U32
    (if useT && (index == 0) then c else pal index) :: write_row hFlip useT pal bpNext rest

/-- Embeds `Snes4BppTile::bitplane_sets` for row `r` of a 32-byte tile. -/
def bitplane_set (t : List Nat) (r : Nat) : Nat × Nat × Nat × Nat :=
  (t.getD (2 * r) 0, t.getD (2 * r + 1) 0, t.getD (16 + 2 * r) 0, t.getD (16 + 2 * r + 1) 0)

/-- The decoded 32-bit row word of row `r` of a tile. -/
def row_word (t : List Nat) (r : Nat) : Nat :=
  decode_bitplanes (bitplane_set t r).1 (bitplane_set t r).2.1
    (bitplane_set t r).2.2.1 (bitplane_set t r).2.2.2

/-- Embeds `Snes4BppTile::write_to_image`: zips the 8 decoded row words with
the output row slivers (rows past the zip are left untouched). -/
def write_to_image {α : Type} (hFlip useT : Bool) (pal : Nat → α) (t : List Nat)
    (output : List (List α)) : List (List α) :=
  List.zipWith (write_row hFlip useT pal) ((List.range 8).map (row_word t)) output
    ++ output.drop 8

/-- Embeds `Snes4BppTile::write_to_image_flippable`.  As in the source, every
branch dispatches to `write_to_image` with the transparency const generic set
to `false`, and vertical flip reverses the iteration order over the output
slivers. -/
def write_to_image_flippable {α : Type} (useT : Bool) (pal : Nat → α) (t : List Nat)
    (output_slivers : List (List α)) (flips : Bool × Bool) : List (List α) :=
  match flips with
  | (false, false) => write_to_image false false pal t output_slivers
  | (true, false) => write_to_image true false pal t output_slivers
  | (false, true) => (write_to_image false false pal t output_slivers.reverse).reverse
  | (true, true) => (write_to_image true false pal t output_slivers.reverse).reverse

theorem decode_bitplanes_lt (b0 b1 b2 b3 : Nat) : decode_bitplanes b0 b1 b2 b3 < U32 := by
  have hm : ∀ x : Nat, x % U32 < 2 ^ 32 := fun x => Nat.mod_lt _ (by norm_num [U32])
  show decode_bitplanes b0 b1 b2 b3 < 2 ^ 32
  unfold decode_bitplanes
  exact Nat.or_lt_two_pow (Nat.or_lt_two_pow (Nat.or_lt_two_pow
    (lt_of_le_of_lt (spread_u8_x4_le _) (by norm_num)) (hm _)) (hm _)) (hm _)

theorem row_word_lt (t : List Nat) (r : Nat) : row_word t r < U32 :=
  decode_bitplanes_lt _ _ _ _

theorem write_row_msb_eq {α : Type} (pal : Nat → α) :
    ∀ (r : List α) (w : Nat), w < U32 →
      write_row false false pal w r =
        (List.range r.length).map (fun j => pal (w * 2 ^ (4 * j) % U32 / 2 ^ 28)) := by
  intro r
  induction r with
  | nil => intro w hw; rfl
  | cons c rest ih =>
    intro w hw
    have hU : 0 < U32 := by unfold U32; norm_num
    have hnext : w <<< 4 % U32 < U32 := Nat.mod_lt _ hU
    have step : write_row false false pal w (c :: rest) =
        pal (w >>> 28) :: write_row false false pal (w <<< 4 % U32) rest := rfl
    rw [step, ih _ hnext, List.length_cons, List.range_succ_eq_map, List.map_cons,
      List.map_map]
    refine congrArg₂ List.cons (congrArg pal ?_) (List.map_congr_left fun j hj => ?_)
    · rw [Nat.shiftRight_eq_div_pow, Nat.mul_zero, pow_zero, Nat.mul_one,
        Nat.mod_eq_of_lt hw]
    · simp only [Function.comp_apply, Nat.succ_eq_add_one]
      refine congrArg pal ?_
      rw [Nat.mod_mul_mod, Nat.shiftLeft_eq]
      have harg : w * 2 ^ 4 * 2 ^ (4 * j) = w * 2 ^ (4 * (j + 1)) := by ring
      rw [harg]

theorem write_row_lsb_eq {α : Type} (pal : Nat → α) :
    ∀ (r : List α) (w : Nat),
      write_row true false pal w r =
        (List.range r.length).map (fun j => pal (w / 2 ^ (4 * j) % 16)) := by
  intro r
  induction r with
  | nil => intro w; rfl
  | cons c rest ih =>
    intro w
    have step : write_row true false pal w (c :: rest) =
        pal (w &&& 0xF) :: write_row true false pal (w >>> 4) rest := rfl
    rw [step, ih, List.length_cons, List.range_succ_eq_map, List.map_cons, List.map_map]
    refine congrArg₂ List.cons (congrArg pal ?_) (List.map_congr_left fun j hj => ?_)
    · rw [show (0xF : Nat) = 2 ^ 4 - 1 by norm_num, Nat.and_pow_two_sub_one_eq_mod,
        Nat.mul_zero, pow_zero, Nat.div_one]
    · simp only [Function.comp_apply, Nat.succ_eq_add_one]
      refine congrArg pal ?_
      rw [Nat.shiftRight_eq_div_pow, Nat.div_div_eq_div_mul]
      have harg : (2 : Nat) ^ 4 * 2 ^ (4 * j) = 2 ^ (4 * (j + 1)) := by ring
      rw [harg]

theorem nibble_msb_lsb {w : Nat} (hw : w < U32) {i : Nat} (hi : i < 8) :
    w * 2 ^ (4 * (8 - 1 - i)) % U32 / 2 ^ 28 = w / 2 ^ (4 * i) % 16 := by
  have hw32 : w < 2 ^ 32 := hw
  have hU : U32 = 2 ^ 32 := rfl
  rw [hU]
  interval_cases i <;> norm_num <;> omega

theorem write_row_rev8 {α : Type} (pal : Nat → α) (w : Nat) (hw : w < U32)
    (r r2 : List α) (hr : r.length = 8) (hr2 : r2.length = 8) :
    (write_row false false pal w r).reverse = write_row true false pal w r2 := by
  rw [write_row_msb_eq pal r w hw, write_row_lsb_eq pal r2 w, hr, hr2]
  apply List.ext_getElem
  · simp
  · intro i h1 h2
    have hi : i < 8 := by simpa using h2
    rw [List.getElem_reverse]
    simp only [List.getElem_map, List.getElem_range, List.length_map, List.length_range]
    exact congrArg pal (nibble_msb_lsb hw hi)

theorem zipWith_reverse_eq {α β γ : Type} (f : α → β → γ) :
    ∀ (as : List α) (bs : List β), as.length = bs.length →
      (List.zipWith f as bs).reverse = List.zipWith f as.reverse bs.reverse := by
  intro as
  induction as with
  | nil => intro bs h; simp
  | cons a as ih =>
    intro bs h
    cases bs with
    | nil => simp at h
    | cons b bs =>
      have hlen : as.length = bs.length := by simpa using h
      simp only [List.zipWith_cons_cons, List.reverse_cons]
      rw [ih bs hlen, List.zipWith_append _ _ _ _ _ (by simp [hlen])]
      simp

theorem zipWith_congr_of_indep {α β : Type} (F G : Nat → List α → β) (P : Nat → Prop)
    (h : ∀ w r r2, P w → r.length = 8 → r2.length = 8 → F w r = G w r2) :
    ∀ (ws : List Nat) (out out2 : List (List α)),
      (∀ w ∈ ws, P w) → out.length = ws.length → out2.length = ws.length →
      (∀ r ∈ out, r.length = 8) → (∀ r ∈ out2, r.length = 8) →
      List.zipWith F ws out = List.zipWith G ws out2 := by
  intro ws
  induction ws with
  | nil => intro out out2 _ _ _ _ _; simp
  | cons w ws ih =>
    intro out out2 hP h1 h2 hr hr2
    cases out with
    | nil => simp at h1
    | cons r out =>
      cases out2 with
      | nil => simp at h2
      | cons r2 out2 =>
        simp only [List.zipWith_cons_cons]
        refine congrArg₂ List.cons ?_ ?_
        · exact h w r r2 (hP w (by simp)) (hr r (by simp)) (hr2 r2 (by simp))
        · exact ih out out2 (fun x hx => hP x (by simp [hx]))
            (by simpa using h1) (by simpa using h2)
            (fun x hx => hr x (by simp [hx])) (fun x hx => hr2 x (by simp [hx]))

/-- C5: writing a tile un-flipped and then mirroring the result across both
axes gives the same pixel grid as writing the tile with both flips set (via
`write_to_image_flippable` with `h_flip = true, v_flip = true`), for every
32-byte tile, palette, and 8-by-8 output grid. -/
theorem C5_double_flip_symmetry {α : Type} (pal : Nat → α) (t : List Nat)
    (out : List (List α)) (ht : t.length = 32) (hlen : out.length = 8)
    (hrows : ∀ r ∈ out, r.length = 8) :
    ((write_to_image false false pal t out).reverse).map List.reverse =
      write_to_image_flippable false pal t out (true, true) := by
  have hws : ((List.range 8).map (row_word t)).length = 8 := by simp
  have hdrop : out.drop 8 = [] := by
    rw [← hlen]; exact List.drop_length out
  have hdrop2 : out.reverse.drop 8 = [] := by
    rw [show (8 : Nat) = out.reverse.length by simp [hlen]]
    exact List.drop_length out.reverse
  show ((write_to_image false false pal t out).reverse).map List.reverse =
    (write_to_image true false pal t out.reverse).reverse
  unfold write_to_image
  rw [hdrop, hdrop2, List.append_nil, List.append_nil]
  rw [zipWith_reverse_eq _ _ _ (by simp [hlen]),
    zipWith_reverse_eq _ _ _ (by simp [hlen]), List.reverse_reverse,
    List.map_zipWith]
  refine zipWith_congr_of_indep _ _ (fun w => w < U32)
    (fun w r r2 hw hr hr2 => write_row_rev8 pal w hw r r2 hr hr2)
    _ _ _ (fun w hw => ?_) (by simp [hlen]) (by simp [hlen])
    (fun r hr => hrows r (by simpa using hr)) hrows
  rw [List.mem_reverse] at hw
  obtain ⟨j, hj, rfl⟩ := List.mem_map.mp hw
  exact row_word_lt t j

/-- Witness for C5 at a concrete tile, palette and output grid. -/
theorem C5_witness :
    ((write_to_image false false (fun i => i) (List.replicate 31 0 ++ [1])
        (List.replicate 8 (List.replicate 8 99))).reverse).map List.reverse =
      write_to_image_flippable false (fun i => i) (List.replicate 31 0 ++ [1])
        (List.replicate 8 (List.replicate 8 99)) (true, true) :=
  C5_double_flip_symmetry (fun i => i) _ _ (by decide) (by decide) (by decide)

/-! ## Packed tilemap entries (src/project.rs)

A `TilemapEntry` wraps a u16; the accessors below embed the `bit_field`
getters used in the source (`get_bits(a..b)` is `v >>> a &&& (2 ^ (b - a) - 1)`,
`get_bit(i)` is `testBit`). -/

namespace TilemapEntry

/-- Bits 0..10 of a tilemap entry: the tile id. -/
def tile_id (v : Nat) : Nat := v >>> 0 &&& (2 ^ 10 - 1)

/-- Bits 10..13 of a tilemap entry: the palette line index. -/
def palette (v : Nat) : Nat := v >>> 10 &&& (2 ^ 3 - 1)

/-- Bit 14 of a tilemap entry: horizontal flip. -/
def h_flip (v : Nat) : Bool := v.testBit 14

/-- Bit 15 of a tilemap entry: vertical flip. -/
def v_flip (v : Nat) : Bool := v.testBit 15

/-- The `H_FLIP_FLAG` constant, `1 << 14`. -/
def H_FLIP_FLAG : Nat := 1 <<< 14

/-- The `V_FLIP_FLAG` constant, `1 << 15`. -/
def V_FLIP_FLAG : Nat := 1 <<< 15

end TilemapEntry

namespace LevelDataEntry

/-- Bits 0..10 of a level-data entry: the block id. -/
def block_id (v : Nat) : Nat := v >>> 0 &&& (2 ^ 10 - 1)

/-- Bit 11 of a level-data entry: horizontal flip. -/
def h_flip (v : Nat) : Bool := v.testBit 11

/-- Bit 12 of a level-data entry: vertical flip. -/
def v_flip (v : Nat) : Bool := v.testBit 12

end LevelDataEntry

theorem write_row_palette_congr {α : Type} (pal pal2 : Nat → α) (hFlip useT : Bool)
    (hpal : ∀ i, i < 16 → pal i = pal2 i) :
    ∀ (r : List α) (w : Nat), w < U32 →
      write_row hFlip useT pal w r = write_row hFlip useT pal2 w r := by
  intro r
  induction r with
  | nil => intro w hw; rfl
  | cons c rest ih =>
    intro w hw
    have hidx : (if hFlip then w &&& 0xF else w >>> 28) < 16 := by
      cases hFlip with
      | false =>
        simp only [if_false, Bool.false_eq_true]
        rw [Nat.shiftRight_eq_div_pow]
        have : w < 2 ^ 32 := hw
        omega
      | true =>
        simp only [if_true]
        have : w &&& 0xF ≤ 0xF := Nat.and_le_right
        omega
    have hnext : (if hFlip then w >>> 4 else w <<< 4 % U32) < U32 := by
      cases hFlip with
      | false => exact Nat.mod_lt _ (by norm_num [U32])
      | true =>
        simp only [if_true]
        rw [Nat.shiftRight_eq_div_pow]
        have hd : w / 2 ^ 4 ≤ w := Nat.div_le_self _ _
        omega
    show (if useT && ((if hFlip then w &&& 0xF else w >>> 28) == 0) then c
        else pal (if hFlip then w &&& 0xF else w >>> 28)) ::
        write_row hFlip useT pal (if hFlip then w >>> 4 else w <<< 4 % U32) rest =
      (if useT && ((if hFlip then w &&& 0xF else w >>> 28) == 0) then c
        else pal2 (if hFlip then w &&& 0xF else w >>> 28)) ::
        write_row hFlip useT pal2 (if hFlip then w >>> 4 else w <<< 4 % U32) rest
    refine congrArg₂ List.cons ?_ (ih _ hnext)
    cases huse : useT && ((if hFlip then w &&& 0xF else w >>> 28) == 0) with
    | true => rfl
    | false =>
      simp only [Bool.false_eq_true, if_false]
      exact hpal _ hidx

/-- C10: for every 16-bit tilemap entry value, the decoded palette index is
below 8 and the decoded tile id is below 1024; every decoded row word is a
32-bit value; and the row writer only ever applies its palette at indices
below 16 — so the compositor's indexing of the 8-entry palette-line array by
`palette()` and of a 16-color palette line by a decoded pixel index is always
in bounds. -/
theorem C10_entry_and_pixel_index_bounds :
    (∀ v : Nat, TilemapEntry.palette v < 8 ∧ TilemapEntry.tile_id v < 1024) ∧
    (∀ (t : List Nat) (r : Nat), row_word t r < U32) ∧
    (∀ (α : Type) (pal pal2 : Nat → α) (hFlip useT : Bool) (r : List α) (w : Nat),
      w < U32 → (∀ i, i < 16 → pal i = pal2 i) →
      write_row hFlip useT pal w r = write_row hFlip useT pal2 w r) := by
  refine ⟨fun v => ⟨?_, ?_⟩, fun t r => row_word_lt t r,
    fun α pal pal2 hFlip useT r w hw hpal =>
      write_row_palette_congr pal pal2 hFlip useT hpal r w hw⟩
  · have : TilemapEntry.palette v ≤ 2 ^ 3 - 1 := Nat.and_le_right
    omega
  · have : TilemapEntry.tile_id v ≤ 2 ^ 10 - 1 := Nat.and_le_right
    omega

/-- Witness for C10 at concrete inputs: two palettes agreeing below index 16
give the same written row. -/
theorem C10_witness :
    write_row false false (fun i => i) 5 [0] =
      write_row false false (fun i => if i < 16 then i else 99) 5 [0] :=
  C10_entry_and_pixel_index_bounds.2.2 Nat (fun i => i) (fun i => if i < 16 then i else 99)
    false false [0] 5 (by norm_num [U32]) (fun i hi => by simp [hi])

/-- C7 (divergence witness): `write_to_image` honors the requested
transparency mode (an all-zero tile leaves the output untouched), but
`write_to_image_flippable` ignores its transparency parameter: requesting
transparency still overwrites every pixel, including those whose decoded
index is 0, with the palette entry for index 0. -/
theorem C7_flippable_ignores_transparency :
    write_to_image true true (fun _ => 7) (List.replicate 32 0)
        (List.replicate 8 (List.replicate 8 0)) =
      List.replicate 8 (List.replicate 8 0) ∧
    write_to_image_flippable true (fun _ => 7) (List.replicate 32 0)
        (List.replicate 8 (List.replicate 8 0)) (false, false) =
      List.replicate 8 (List.replicate 8 7) := by
  constructor <;> decide

/-! ## Overlay resolver (src/tileset.rs) -/

/-- Embeds `OverlaidLayoutEntry`: one stacked source with its base offset and
size. -/
structure OverlaidLayoutEntry (Ref : Type) where
  base : Nat
  size : Nat
  tileset : Ref
deriving Repr, DecidableEq

/-- Embeds `OverlaidLayout`: an ordered list of overlay entries. -/
structure OverlaidLayout (Ref : Type) where
  entries : List (OverlaidLayoutEntry Ref)
deriving Repr, DecidableEq

/-- Embeds `OverlaidLayout::lookup`: `rfind` scans the entry list from the
last entry to the first and returns the first entry containing `i` (with the
inclusive bound `i - base <= size`), together with the local offset. -/
def OverlaidLayout.lookup {Ref : Type} (l : OverlaidLayout Ref) (i : Nat) :
    Option (Ref × Nat) :=
  (l.entries.reverse.find? fun e => decide (i ≥ e.base) && decide (i - e.base ≤ e.size)).map
    fun e => (e.tileset, i - e.base)

/-- C2: overlay lookup returns the source and local offset of the
last-registered entry whose (inclusive) range contains the index, `none` when
no entry matches; in particular with `[{base 0, size 10, A}, {base 5, size 10, B}]`
index 7 resolves to `(B, 2)`, and the bound is inclusive: `{base 0, size 10}`
still matches index 10. -/
theorem C2_lookup_last_registered_wins {Ref : Type} (l : OverlaidLayout Ref) (i : Nat) :
    ((∀ e ∈ l.entries, ¬(i ≥ e.base ∧ i - e.base ≤ e.size)) → l.lookup i = none) ∧
    (∀ (pre suf : List (OverlaidLayoutEntry Ref)) (e : OverlaidLayoutEntry Ref),
      l.entries = pre ++ e :: suf → i ≥ e.base → i - e.base ≤ e.size →
      (∀ e2 ∈ suf, ¬(i ≥ e2.base ∧ i - e2.base ≤ e2.size)) →
      l.lookup i = some (e.tileset, i - e.base)) ∧
    OverlaidLayout.lookup ⟨[⟨0, 10, 0⟩, ⟨5, 10, 1⟩]⟩ 7 = some (1, 2) ∧
    OverlaidLayout.lookup ⟨[⟨0, 10, 0⟩]⟩ 10 = some (0, 10) := by
  refine ⟨?_, ?_, by decide, by decide⟩
  · intro h
    unfold OverlaidLayout.lookup
    rw [List.find?_eq_none.mpr ?_]
    · rfl
    · intro e he
      rw [List.mem_reverse] at he
      simp only [Bool.and_eq_true, decide_eq_true_eq]
      exact fun hc => h e he ⟨hc.1, hc.2⟩
  · intro pre suf e heq h1 h2 hsuf
    unfold OverlaidLayout.lookup
    rw [heq, List.reverse_append, List.reverse_cons, List.find?_append,
      List.find?_append]
    have hnone : suf.reverse.find?
        (fun e => decide (i ≥ e.base) && decide (i - e.base ≤ e.size)) = none := by
      apply List.find?_eq_none.mpr
      intro e2 he2
      rw [List.mem_reverse] at he2
      simp only [Bool.and_eq_true, decide_eq_true_eq]
      exact fun hc => hsuf e2 he2 ⟨hc.1, hc.2⟩
    have hpos : List.find? (fun e => decide (i ≥ e.base) && decide (i - e.base ≤ e.size))
        [e] = some e :=
      List.find?_cons_of_pos _ (by simp [h1, h2])
    rw [hnone, hpos]
    rfl

/-- Witness for C2 applying the last-registered clause at the concrete
two-entry layout of the claim. -/
theorem C2_witness :
    OverlaidLayout.lookup ⟨[⟨0, 10, 5⟩, ⟨5, 10, 6⟩]⟩ 7 = some (6, 7 - 5) :=
  (C2_lookup_last_registered_wins ⟨[⟨0, 10, 5⟩, ⟨5, 10, 6⟩]⟩ 7).2.1
    [⟨0, 10, 5⟩] [] ⟨5, 10, 6⟩ rfl (by decide) (by decide) (by decide)

/-! ## Tileset layout detection (src/tileset.rs, `detect_sources_layout`) -/

/-- Embeds the fields of `Tileset` that the layout detection reads: the
decoded tile list, the block table and the palette (tiles as 32-byte lists,
tiletable entries as quadruples of packed tilemap entries). -/
structure Tileset where
  palette : List Nat
  gfx : List (List Nat)
  tiletable : List (Fin 4 → Nat)

/-- Embeds `LoadedTilesetLayout`. -/
structure LoadedTilesetLayout (Ref : Type) where
  gfx : OverlaidLayout Ref
  tiletable : OverlaidLayout Ref
  palette_source : Ref

/-- Embeds `detect_sources_layout`: the CRE gfx (when present) is registered
first at base 0x280, the SCE gfx last at base 0; for the block table the
`is_ceres_tileset` heuristic (`tiletable.len() > 0x300`) either drops the CRE
table and puts the SCE table at base 0, or stacks CRE at 0 and SCE at 0x100. -/
def detect_sources_layout (selected_sce : Tileset) (selected_cre : Option Tileset) :
    LoadedTilesetLayout Tileset :=
  let is_ceres_tileset := 0x300 < selected_sce.tiletable.length
  let gfx_entries : List (OverlaidLayoutEntry Tileset) :=
    (match selected_cre with
      | some cre => [⟨0x280, cre.gfx.length, cre⟩]
      | none => []) ++ [⟨0x0, selected_sce.gfx.length, selected_sce⟩]
  let ttb_entries : List (OverlaidLayoutEntry Tileset) :=
    (match selected_cre with
      | some cre => if is_ceres_tileset then [] else [⟨0x0, cre.tiletable.length, cre⟩]
      | none => []) ++
      [⟨if is_ceres_tileset then 0x0 else 0x100, selected_sce.tiletable.length,
        selected_sce⟩]
  { gfx := ⟨gfx_entries⟩, tiletable := ⟨ttb_entries⟩, palette_source := selected_sce }

/-- C4: the detected layout puts the CRE gfx (when present) at fixed base
0x280 and the SCE gfx at base 0, registered last, so the SCE wins lookups in
its own range; the block-table layout follows the size-threshold heuristic:
above 0x300 entries the SCE table alone sits at base 0 with the CRE table
omitted, otherwise CRE at base 0 and SCE at base 0x100; the palette comes
from the SCE. -/
theorem C4_detect_sources_layout_spec (sce : Tileset) (cre : Tileset) :
    ((detect_sources_layout sce (some cre)).gfx.entries =
      [⟨0x280, cre.gfx.length, cre⟩, ⟨0x0, sce.gfx.length, sce⟩]) ∧
    ((detect_sources_layout sce none).gfx.entries = [⟨0x0, sce.gfx.length, sce⟩]) ∧
    (∀ i, i ≤ sce.gfx.length →
      (detect_sources_layout sce (some cre)).gfx.lookup i = some (sce, i)) ∧
    (0x300 < sce.tiletable.length →
      (detect_sources_layout sce (some cre)).tiletable.entries =
        [⟨0x0, sce.tiletable.length, sce⟩]) ∧
    (¬0x300 < sce.tiletable.length →
      (detect_sources_layout sce (some cre)).tiletable.entries =
        [⟨0x0, cre.tiletable.length, cre⟩, ⟨0x100, sce.tiletable.length, sce⟩]) ∧
    ((detect_sources_layout sce (some cre)).palette_source = sce) := by
  refine ⟨rfl, rfl, ?_, ?_, ?_, rfl⟩
  · intro i hi
    unfold detect_sources_layout OverlaidLayout.lookup
    simp only [List.reverse_append, List.reverse_cons, List.reverse_nil, List.nil_append,
      List.singleton_append]
    rw [List.find?_cons_of_pos _ (by simp [hi])]
    rfl
  · intro h
    unfold detect_sources_layout
    simp only [if_pos h]
    rfl
  · intro h
    unfold detect_sources_layout
    simp only [if_neg h]
    rfl

/-- Witness for C4 at concrete tilesets (SCE with a small tiletable, CRE
present). -/
theorem C4_witness :
    (detect_sources_layout ⟨[], [[]], [fun _ => 0]⟩
        (some ⟨[], [[], []], [fun _ => 0, fun _ => 0]⟩)).gfx.lookup 1 =
      some (⟨[], [[]], [fun _ => 0]⟩, 1) :=
  (C4_detect_sources_layout_spec ⟨[], [[]], [fun _ => 0]⟩
    ⟨[], [[], []], [fun _ => 0, fun _ => 0]⟩).2.2.1 1 (by decide)

/-! ## Block-to-subtile grid (src/ui/tile_view.rs, `BlockTilemapModel::get`) -/

/-- Embeds `BlockTilemapModel::get`: the backing block grid and the
tiletable view are passed as functions; a tiletable entry is the quadruple
of packed subtile references, indexed row-major. -/
def BlockTilemapModel.get (blocks : Nat → Nat → Option Nat)
    (tiletable_get : Nat → Option (Fin 4 → Nat)) (x y : Nat) : Option Nat :=
  match blocks (x / 2) (y / 2) with
  | none => none
  | some block =>
    match tiletable_get (LevelDataEntry.block_id block) with
    | none => none
    | some subtiles =>
      let sx := if LevelDataEntry.h_flip block then x % 2 ^^^ 1 else x % 2
      let sy := if LevelDataEntry.v_flip block then y % 2 ^^^ 1 else y % 2
      let subtile := subtiles ⟨(sy * 2 + sx) % 4, Nat.mod_lt _ (by norm_num)⟩
      let subtile2 := if LevelDataEntry.h_flip block
        then subtile ^^^ TilemapEntry.H_FLIP_FLAG else subtile
      let subtile3 := if LevelDataEntry.v_flip block
        then subtile2 ^^^ TilemapEntry.V_FLIP_FLAG else subtile2
      some subtile3

theorem tm_h_flip_xor_h (s : Nat) :
    TilemapEntry.h_flip (s ^^^ TilemapEntry.H_FLIP_FLAG) = !TilemapEntry.h_flip s := by
  unfold TilemapEntry.h_flip TilemapEntry.H_FLIP_FLAG
  rw [Nat.testBit_xor, show Nat.testBit (1 <<< 14) 14 = true from by decide, Bool.xor_true]

theorem tm_h_flip_xor_v (s : Nat) :
    TilemapEntry.h_flip (s ^^^ TilemapEntry.V_FLIP_FLAG) = TilemapEntry.h_flip s := by
  unfold TilemapEntry.h_flip TilemapEntry.V_FLIP_FLAG
  rw [Nat.testBit_xor, show Nat.testBit (1 <<< 15) 14 = false from by decide, Bool.xor_false]

theorem tm_v_flip_xor_h (s : Nat) :
    TilemapEntry.v_flip (s ^^^ TilemapEntry.H_FLIP_FLAG) = TilemapEntry.v_flip s := by
  unfold TilemapEntry.v_flip TilemapEntry.H_FLIP_FLAG
  rw [Nat.testBit_xor, show Nat.testBit (1 <<< 14) 15 = false from by decide, Bool.xor_false]

theorem tm_v_flip_xor_v (s : Nat) :
    TilemapEntry.v_flip (s ^^^ TilemapEntry.V_FLIP_FLAG) = !TilemapEntry.v_flip s := by
  unfold TilemapEntry.v_flip TilemapEntry.V_FLIP_FLAG
  rw [Nat.testBit_xor, show Nat.testBit (1 <<< 15) 15 = true from by decide, Bool.xor_true]

theorem tm_tile_id_xor_flag (s flag : Nat) (hF : flag &&& (2 ^ 10 - 1) = 0) :
    TilemapEntry.tile_id (s ^^^ flag) = TilemapEntry.tile_id s := by
  unfold TilemapEntry.tile_id
  rw [Nat.shiftRight_zero, Nat.shiftRight_zero, Nat.and_xor_distrib_right, hF, Nat.xor_zero]

theorem tm_palette_xor_flag (s flag : Nat) (h1 : Nat.testBit flag 10 = false)
    (h2 : Nat.testBit flag 11 = false) (h3 : Nat.testBit flag 12 = false) :
    TilemapEntry.palette (s ^^^ flag) = TilemapEntry.palette s := by
  unfold TilemapEntry.palette
  apply Nat.eq_of_testBit_eq
  intro i
  simp only [Nat.testBit_and, Nat.testBit_shiftRight, Nat.testBit_xor,
    Nat.testBit_two_pow_sub_one]
  by_cases hi : i < 3
  · interval_cases i <;> simp [h1, h2, h3]
  · simp [hi]

/-- Local subtile position selected by the block-to-subtile grid, written
the way claim C6 states it: `((x % 2) XOR h_flip, (y % 2) XOR v_flip)` in
row-major order. -/
def subtile_pos (b x y : Nat) : Fin 4 :=
  ⟨((y % 2 ^^^ (if LevelDataEntry.v_flip b then 1 else 0)) * 2 +
    (x % 2 ^^^ (if LevelDataEntry.h_flip b then 1 else 0))) % 4,
    Nat.mod_lt _ (by norm_num)⟩

/-- The pair of conditional flag XORs applied by `BlockTilemapModel::get` to
the selected subtile reference. -/
def apply_flips (hb vb : Bool) (s : Nat) : Nat :=
  let s2 := if hb then s ^^^ TilemapEntry.H_FLIP_FLAG else s
  if vb then s2 ^^^ TilemapEntry.V_FLIP_FLAG else s2

theorem apply_flips_h (hb vb : Bool) (s : Nat) :
    TilemapEntry.h_flip (apply_flips hb vb s) = xor (TilemapEntry.h_flip s) hb := by
  cases hb <;> cases vb <;>
    simp [apply_flips, tm_h_flip_xor_h, tm_h_flip_xor_v]

theorem apply_flips_v (hb vb : Bool) (s : Nat) :
    TilemapEntry.v_flip (apply_flips hb vb s) = xor (TilemapEntry.v_flip s) vb := by
  cases hb <;> cases vb <;>
    simp [apply_flips, tm_v_flip_xor_h, tm_v_flip_xor_v]

theorem apply_flips_tile_id (hb vb : Bool) (s : Nat) :
    TilemapEntry.tile_id (apply_flips hb vb s) = TilemapEntry.tile_id s := by
  cases hb <;> cases vb <;>
    simp [apply_flips, tm_tile_id_xor_flag _ _ (show TilemapEntry.H_FLIP_FLAG &&&
        (2 ^ 10 - 1) = 0 from by decide),
      tm_tile_id_xor_flag _ _ (show TilemapEntry.V_FLIP_FLAG &&& (2 ^ 10 - 1) = 0 from
        by decide)]

theorem apply_flips_palette (hb vb : Bool) (s : Nat) :
    TilemapEntry.palette (apply_flips hb vb s) = TilemapEntry.palette s := by
  have hh := fun s => tm_palette_xor_flag s TilemapEntry.H_FLIP_FLAG
    (by decide) (by decide) (by decide)
  have hv := fun s => tm_palette_xor_flag s TilemapEntry.V_FLIP_FLAG
    (by decide) (by decide) (by decide)
  cases hb <;> cases vb <;> simp [apply_flips, hh, hv]

/-- C6: the block-to-subtile grid locates the owning block at `(x/2, y/2)`,
returns `none` when that cell or its tiletable entry is absent, and otherwise
selects the subtile at local position `((x%2) XOR h_flip, (y%2) XOR v_flip)`
and returns it with the block's flip flags XORed into the subtile's own flip
flags, tile id and palette unchanged; in particular a block with
`h_flip = true` queried at subtile position (1, 0) selects the subtile at
local position (0, 0) and reports its horizontal flip negated. -/
theorem C6_block_tilemap_get_spec (blocks : Nat → Nat → Option Nat)
    (ttb : Nat → Option (Fin 4 → Nat)) (x y : Nat) :
    (blocks (x / 2) (y / 2) = none → BlockTilemapModel.get blocks ttb x y = none) ∧
    (∀ b, blocks (x / 2) (y / 2) = some b → ttb (LevelDataEntry.block_id b) = none →
      BlockTilemapModel.get blocks ttb x y = none) ∧
    (∀ b subtiles, blocks (x / 2) (y / 2) = some b →
      ttb (LevelDataEntry.block_id b) = some subtiles →
      ∃ r, BlockTilemapModel.get blocks ttb x y = some r ∧
        TilemapEntry.h_flip r =
          xor (TilemapEntry.h_flip (subtiles (subtile_pos b x y)))
            (LevelDataEntry.h_flip b) ∧
        TilemapEntry.v_flip r =
          xor (TilemapEntry.v_flip (subtiles (subtile_pos b x y)))
            (LevelDataEntry.v_flip b) ∧
        TilemapEntry.tile_id r = TilemapEntry.tile_id (subtiles (subtile_pos b x y)) ∧
        TilemapEntry.palette r = TilemapEntry.palette (subtiles (subtile_pos b x y))) ∧
    (∀ subtiles : Fin 4 → Nat,
      BlockTilemapModel.get (fun _ _ => some (2 ^ 11)) (fun _ => some subtiles) 1 0 =
        some (subtiles 0 ^^^ TilemapEntry.H_FLIP_FLAG) ∧
      TilemapEntry.h_flip (subtiles 0 ^^^ TilemapEntry.H_FLIP_FLAG) =
        !TilemapEntry.h_flip (subtiles 0)) := by
  refine ⟨?_, ?_, ?_, fun subtiles => ⟨rfl, tm_h_flip_xor_h _⟩⟩
  · intro h
    simp only [BlockTilemapModel.get, h]
  · intro b h1 h2
    simp only [BlockTilemapModel.get, h1, h2]
  · intro b subtiles h1 h2
    have hpos : (⟨((if LevelDataEntry.v_flip b then y % 2 ^^^ 1 else y % 2) * 2 +
        (if LevelDataEntry.h_flip b then x % 2 ^^^ 1 else x % 2)) % 4,
        Nat.mod_lt _ (by norm_num)⟩ : Fin 4) = subtile_pos b x y := by
      apply Fin.ext
      cases hh : LevelDataEntry.h_flip b <;> cases hv : LevelDataEntry.v_flip b <;>
        simp [subtile_pos, hh, hv]
    have hval : BlockTilemapModel.get blocks ttb x y =
        some (apply_flips (LevelDataEntry.h_flip b) (LevelDataEntry.v_flip b)
          (subtiles (subtile_pos b x y))) := by
      simp only [BlockTilemapModel.get, h1, h2, ← hpos]
      rfl
    exact ⟨_, hval, apply_flips_h _ _ _, apply_flips_v _ _ _,
      apply_flips_tile_id _ _ _, apply_flips_palette _ _ _⟩

/-- Witness for C6 at concrete grids: an absent block cell yields `none`, and
the claim's flipped-block instance evaluates as stated. -/
theorem C6_witness :
    (BlockTilemapModel.get (fun _ _ => none) (fun _ => some (fun j => j.val)) 3 5 = none) ∧
    (BlockTilemapModel.get (fun _ _ => some (2 ^ 11)) (fun _ => some (fun j => j.val + 7))
      1 0 = some ((0 + 7) ^^^ TilemapEntry.H_FLIP_FLAG)) := by
  constructor
  · exact (C6_block_tilemap_get_spec (fun _ _ => none) (fun _ => some (fun j => j.val))
      3 5).1 rfl
  · exact ((C6_block_tilemap_get_spec (fun _ _ => some (2 ^ 11))
      (fun _ => some (fun j => j.val + 7)) 1 0).2.2.2 (fun j => j.val + 7)).1

/-! ## Checked palette truncation (src/gfx.rs, `Palette::truncate_checked`)

The palette is the list of raw 16-bit colors; the source mutates `self` and
returns `Result<(), ()>`, embedded here as a pair of the result and the
palette after the call. -/

/-- Embeds `Palette::truncate_checked`: errors (leaving the palette as is)
when `new_len` exceeds the length or any entry past `new_len` is non-zero,
otherwise truncates. -/
def truncate_checked (palette : List Nat) (new_len : Nat) : Except Unit Unit × List Nat :=
  if decide (new_len > palette.length) || (palette.drop new_len).any (fun c => c != 0)
  then (Except.error (), palette)
  else (Except.ok (), palette.take new_len)

/-- C9 counterexample: for the palette `[1]` and requested length 2, every
entry that would be removed (there are none) is zero, yet the call fails —
so success is not equivalent to "all removed entries are zero": the code
also rejects any `new_len` greater than the palette length. -/
theorem C9_counterexample :
    (∀ c ∈ ([1] : List Nat).drop 2, c = 0) ∧
    (truncate_checked [1] 2).1 = Except.error () ∧
    (truncate_checked [1] 2).2 = [1] := by
  refine ⟨by decide, rfl, rfl⟩

/-- C9 (amended): `truncate_checked` succeeds iff the requested length does
not exceed the palette length and every removed entry is the zero color; on
success the palette is the unchanged prefix of the requested length, and on
failure the palette is left completely unchanged. -/
theorem C9_truncate_checked_amended (p : List Nat) (n : Nat) :
    ((truncate_checked p n).1 = Except.ok () ↔
      n ≤ p.length ∧ ∀ c ∈ p.drop n, c = 0) ∧
    ((truncate_checked p n).1 = Except.ok () → (truncate_checked p n).2 = p.take n) ∧
    ((truncate_checked p n).1 = Except.error () → (truncate_checked p n).2 = p) := by
  unfold truncate_checked
  cases hc : decide (n > p.length) || (p.drop n).any (fun c => c != 0) with
  | true =>
    rw [if_pos rfl]
    refine ⟨⟨fun habs => absurd habs (by simp), ?_⟩, fun habs => absurd habs (by simp),
      fun _ => rfl⟩
    rintro ⟨hle, hall⟩
    rw [Bool.or_eq_true] at hc
    rcases hc with h1 | h1
    · rw [decide_eq_true_eq] at h1
      omega
    · rw [List.any_eq_true] at h1
      obtain ⟨c, hcmem, hcne⟩ := h1
      rw [bne_iff_ne] at hcne
      exact absurd (hall c hcmem) hcne
  | false =>
    rw [if_neg (by simp)]
    simp only [Bool.or_eq_false_iff, decide_eq_false_iff_not] at hc
    obtain ⟨h1, h2⟩ := hc
    refine ⟨⟨fun _ => ⟨by omega, fun c hcmem => ?_⟩, fun _ => rfl⟩, fun _ => rfl,
      fun habs => absurd habs (by simp)⟩
    by_contra hne
    have hbne : (c != 0) = true := by simpa [bne_iff_ne] using hne
    have hany : (p.drop n).any (fun c => c != 0) = true :=
      List.any_eq_true.mpr ⟨c, hcmem, hbne⟩
    rw [h2] at hany
    exact absurd hany (by simp)

/-- Witness for C9 at a concrete palette. -/
theorem C9_witness :
    (truncate_checked [5, 0] 1).1 = Except.ok () ∧ (truncate_checked [5, 0] 1).2 = [5] := by
  have h := C9_truncate_checked_amended [5, 0] 1
  have hok : (truncate_checked [5, 0] 1).1 = Except.ok () :=
    h.1.mpr ⟨by decide, by decide⟩
  exact ⟨hok, h.2.1 hok⟩

/-! ## Texture cache (src/ui/tile_view/cache.rs)

The `HashMap` of entries is embedded as a function from keys to optional
`(last-used counter, value)` pairs; `update_counter` is a u32 and both the
increment and the age subtraction wrap at `2^32`.  Texture values are kept
abstract as `V`.  `get_or_insert_with` additionally returns how many times
the compute function was invoked. -/

/-- The eviction age threshold from `TileTextureCache::update`. -/
def MAX_AGE : Nat := 15

/-- u32 wrapping subtraction. -/
def u32_wrapping_sub (a b : Nat) : Nat := (a % U32 + (U32 - b % U32)) % U32

/-- Embeds the `TileTextureCache` state. -/
structure TileTextureCache (K V : Type) where
  update_counter : Nat
  entries : K → Option (Nat × V)

namespace TileTextureCache

/-- Embeds `TileTextureCache::get`: on a hit the entry's last-used counter is
stamped to the current counter and the stored value returned. -/
def get {K V : Type} [DecidableEq K] (c : TileTextureCache K V) (k : K) :
    Option V × TileTextureCache K V :=
  match c.entries k with
  | none => (none, c)
  | some (_, v) =>
    (some v, { c with
      entries := fun k2 => if k2 = k then some (c.update_counter, v) else c.entries k2 })

/-- Embeds `TileTextureCache::insert` (`entry(..).and_modify(..).or_insert(..)`):
an existing entry keeps its value with a re-stamped counter; otherwise the
value is stored with the current counter.  Returns the entry's value. -/
def insert {K V : Type} [DecidableEq K] (c : TileTextureCache K V) (k : K) (v : V) :
    V × TileTextureCache K V :=
  match c.entries k with
  | some (_, v0) =>
    (v0, { c with
      entries := fun k2 => if k2 = k then some (c.update_counter, v0) else c.entries k2 })
  | none =>
    (v, { c with
      entries := fun k2 => if k2 = k then some (c.update_counter, v) else c.entries k2 })

/-- Embeds `TileTextureCache::get_or_insert_with`; `f` is the value the
compute closure produces and the last component counts its invocations. -/
def get_or_insert_with {K V : Type} [DecidableEq K] (c : TileTextureCache K V) (k : K)
    (f : V) : V × TileTextureCache K V × Nat :=
  match get c k with
  | (some v, c2) => (v, c2, 0)
  | (none, _) =>
    let r := insert c k f
    (r.1, r.2, 1)

/-- Embeds `TileTextureCache::update` (the `CacheTrait` maintenance pass):
retains exactly the entries with `last_use.wrapping_sub(update_counter) < MAX_AGE`
and then increments the counter, as in the source. -/
def update {K V : Type} (c : TileTextureCache K V) : TileTextureCache K V :=
  { update_counter := (c.update_counter + 1) % U32,
    entries := fun k =>
      match c.entries k with
      | some (last_use, v) =>
        if u32_wrapping_sub last_use c.update_counter < MAX_AGE then some (last_use, v)
        else none
      | none => none }

end TileTextureCache

theorem get_or_insert_with_hit {K V : Type} [DecidableEq K] (c : TileTextureCache K V)
    (k : K) (f : V) (lu : Nat) (v : V) (h : c.entries k = some (lu, v)) :
    TileTextureCache.get_or_insert_with c k f =
      (v, { c with entries := fun k2 =>
        if k2 = k then some (c.update_counter, v) else c.entries k2 }, 0) := by
  simp only [TileTextureCache.get_or_insert_with, TileTextureCache.get, h]

theorem get_or_insert_with_miss {K V : Type} [DecidableEq K] (c : TileTextureCache K V)
    (k : K) (f : V) (h : c.entries k = none) :
    TileTextureCache.get_or_insert_with c k f =
      (f, { c with entries := fun k2 =>
        if k2 = k then some (c.update_counter, f) else c.entries k2 }, 1) := by
  simp only [TileTextureCache.get_or_insert_with, TileTextureCache.get,
    TileTextureCache.insert, h]

/-- C8: on a hit, `get_or_insert_with` returns the stored value without
invoking the compute function and stamps the entry's last-used counter to the
current one; on a miss it invokes the compute function exactly once and
stores its result with the current counter; hence two successive requests for
an initially absent key invoke the compute function exactly once in total and
return its value. -/
theorem C8_get_or_insert_with_spec {K V : Type} [DecidableEq K]
    (c : TileTextureCache K V) (k : K) (f : V) :
    (∀ lu v, c.entries k = some (lu, v) →
      TileTextureCache.get_or_insert_with c k f =
        (v, { c with entries := fun k2 =>
          if k2 = k then some (c.update_counter, v) else c.entries k2 }, 0)) ∧
    (c.entries k = none →
      TileTextureCache.get_or_insert_with c k f =
        (f, { c with entries := fun k2 =>
          if k2 = k then some (c.update_counter, f) else c.entries k2 }, 1)) ∧
    (c.entries k = none →
      (TileTextureCache.get_or_insert_with c k f).2.2 +
        (TileTextureCache.get_or_insert_with
          (TileTextureCache.get_or_insert_with c k f).2.1 k f).2.2 = 1 ∧
      (TileTextureCache.get_or_insert_with
        (TileTextureCache.get_or_insert_with c k f).2.1 k f).1 = f) := by
  refine ⟨fun lu v h => get_or_insert_with_hit c k f lu v h,
    fun h => get_or_insert_with_miss c k f h, fun h => ?_⟩
  have e1 := get_or_insert_with_miss c k f h
  rw [e1]
  rw [get_or_insert_with_hit _ k f c.update_counter f (by simp)]
  exact ⟨rfl, rfl⟩

/-- Witness for C8 at a concrete cache: an initially absent key is computed
once, stored with the current counter, and the second request is a hit. -/
theorem C8_witness :
    TileTextureCache.get_or_insert_with
        (⟨3, fun _ => none⟩ : TileTextureCache Nat Nat) 0 9 =
      (9, ⟨3, fun k2 => if k2 = 0 then some (3, 9) else none⟩, 1) :=
  (C8_get_or_insert_with_spec (⟨3, fun _ => none⟩ : TileTextureCache Nat Nat) 0 9).2.1 rfl

/-- C3 (divergence witness): an entry inserted at counter 0 and never touched
again survives the first maintenance pass but is evicted by the second, i.e.
after 2 cycles — even though it is then only 1 cycle old, far below the
15-cycle threshold the spec describes.  The eviction test
`last_use.wrapping_sub(update_counter) < MAX_AGE` has its operands reversed,
so any entry not used in the current cycle wraps to a huge age. -/
theorem C3_update_evicts_one_cycle_old_entry :
    ((TileTextureCache.update ((TileTextureCache.get_or_insert_with
        (⟨0, fun _ => none⟩ : TileTextureCache Nat Nat) 0 5).2.1)).entries 0 =
      some (0, 5)) ∧
    ((TileTextureCache.update (TileTextureCache.update
        ((TileTextureCache.get_or_insert_with
          (⟨0, fun _ => none⟩ : TileTextureCache Nat Nat) 0 5).2.1))).entries 0 =
      none) ∧
    ((TileTextureCache.update ((TileTextureCache.get_or_insert_with
        (⟨0, fun _ => none⟩ : TileTextureCache Nat Nat) 0 5).2.1)).update_counter = 1) := by
  refine ⟨rfl, ?_, rfl⟩
  show (if u32_wrapping_sub 0 1 < MAX_AGE then some ((0 : Nat), (5 : Nat)) else none) = none
  rw [if_neg]
  rw [show u32_wrapping_sub 0 1 = 2 ^ 32 - 1 from rfl]
  norm_num [MAX_AGE]

end Smded
